import Mathlib

/-!
Verification of the struct memory-layout engine of `go-memory-visualizer`.

The development shallowly embeds the engine's core
(`src/memoryCalculator.ts`, the layout and cache-line parts of
`src/goParser.ts`, and `src/optimizer.ts`).  JavaScript numbers are
modelled as `Nat` where the source only ever produces non-negative
integers, and as `Int` where a subtraction or a floor division can go
negative.  The recursive type-size resolver (`MemoryCalculator.getTypeInfo`,
which recurses through the struct registry) is embedded with an explicit
fuel parameter `getTypeInfoF`; `gbound` is a computable fuel bound that is
proved sufficient, and the canonical resolver `getTypeInfo` runs the fuel
version at that bound.
-/

/-- `Number.MAX_SAFE_INTEGER` (2^53 - 1). -/
def maxSafeInteger : Nat := 9007199254740991

/-- Modelled from the spec: the constant `CACHE_LINE_SIZE` is imported by
`goParser.ts` from `types.ts` but its definition is not part of the sources;
the spec, README and examples all fix the cache line size to 64 bytes. -/
def CACHE_LINE_SIZE : Nat := 64

/-- The `Architecture` union type of `types.ts`: `'amd64' | 'arm64' | '386'`. -/
inductive Architecture where
  | amd64
  | arm64
  | arch386
deriving DecidableEq, Repr

/-- `MemoryCalculator.getPointerSize`: 8 bytes on amd64/arm64, 4 on 386. -/
def pointerSize : Architecture → Nat
  | .amd64 => 8
  | .arm64 => 8
  | .arch386 => 4

/-- The resolver's result record `{size, alignment}`. -/
structure TypeSizeInfo where
  size : Nat
  alignment : Nat
deriving DecidableEq, Repr

/-- A declared field: `{name, typeName}`. -/
structure FieldDef where
  name : String
  typeName : String
deriving DecidableEq, Repr

/-- The struct registry: type name to declared field list
(`MemoryCalculator.structRegistry`). -/
abbrev Registry := List (String × List FieldDef)

/-- Membership test on the `seen` set of type names (a JS `Set<string>`). -/
def memStr (t : String) : List String → Bool
  | [] => false
  | s :: rest => if s = t then true else memStr t rest

/-- First-match association-list lookup (JS `Map.get` / `switch` dispatch). -/
def lookupPairs {β : Type} (t : String) : List (String × β) → Option β
  | [] => none
  | (k, v) :: rest => if k = t then some v else lookupPairs t rest

/-- `pat.isPrefix of s`: does the character list `s` start with `pat`?
(models `String.startsWith` on the relevant literals). -/
def leadsWith : List Char → List Char → Bool
  | [], _ => true
  | _, [] => false
  | c :: cs, d :: ds => if c = d then leadsWith cs ds else false

/-- Does the character list contain `c`? (models `String.includes`). -/
def hasChar : List Char → Char → Bool
  | [], _ => false
  | d :: ds, c => if d = c then true else hasChar ds c

/-- Split a character list into its maximal leading run of ASCII digits and
the rest. -/
def leadDigits : List Char → List Char × List Char
  | [] => ([], [])
  | c :: rest =>
    if c.isDigit then
      let p := leadDigits rest
      (c :: p.1, p.2)
    else ([], c :: rest)

/-- Decimal value of a digit list (`parseInt(·, 10)` on the matched digits). -/
def natOfDigits (ds : List Char) : Nat :=
  ds.foldl (fun n c => n * 10 + (c.toNat - 48)) 0

/-- The regex `/\[(\d+)\](.+)/` of `getTypeInfo`'s array branch: find the
leftmost `[` that is followed by one or more digits, a `]`, and a non-empty
remainder; return the parsed count and the remainder. -/
def arrayMatch : List Char → Option (Nat × List Char)
  | [] => none
  | c :: rest =>
    let p := leadDigits rest
    if c = '[' ∧ p.1 ≠ [] then
      match p.2 with
      | ']' :: tail => if tail = [] then arrayMatch rest else some (natOfDigits p.1, tail)
      | _ => arrayMatch rest
    else arrayMatch rest

/-- The primitive-type `switch` table of `MemoryCalculator.getTypeInfo`. -/
def primTable (ptr : Nat) : List (String × TypeSizeInfo) :=
  [("bool", ⟨1, 1⟩), ("int8", ⟨1, 1⟩), ("uint8", ⟨1, 1⟩), ("byte", ⟨1, 1⟩),
   ("int16", ⟨2, 2⟩), ("uint16", ⟨2, 2⟩),
   ("int32", ⟨4, 4⟩), ("uint32", ⟨4, 4⟩), ("float32", ⟨4, 4⟩), ("rune", ⟨4, 4⟩),
   ("int64", ⟨8, 8⟩), ("uint64", ⟨8, 8⟩), ("float64", ⟨8, 8⟩), ("complex64", ⟨8, 8⟩),
   ("complex128", ⟨16, 8⟩),
   ("int", ⟨ptr, ptr⟩), ("uint", ⟨ptr, ptr⟩), ("uintptr", ⟨ptr, ptr⟩),
   ("string", ⟨2 * ptr, ptr⟩)]

/-- `MemoryCalculator.alignOffset`: round `offset` up to a multiple of
`alignment`. -/
def alignOffset (offset alignment : Nat) : Nat :=
  let r := offset % alignment
  if r = 0 then offset else offset + (alignment - r)

/-- The loop body of `MemoryCalculator.calculateStructSize`, parametrised by a
resolver, keeping only the running cursor and maximum alignment (all the
struct branch of `getTypeInfo` consumes).  `none` propagates resolver
failure (out of fuel). -/
def structFold (resolve : String → Option TypeSizeInfo) :
    List FieldDef → Nat → Nat → Option (Nat × Nat)
  | [], cur, maxA => some (cur, maxA)
  | f :: rest, cur, maxA =>
    match resolve f.typeName with
    | none => none
    | some ti =>
      structFold resolve rest (alignOffset cur ti.alignment + ti.size) (max maxA ti.alignment)

/-- Fuel-indexed embedding of `MemoryCalculator.getTypeInfo(typeName, seen)`.
Mirrors the source: the `seen` cycle check, the primitive switch, pointer and
slice prefixes, the fixed-array branch with the `MAX_SAFE_INTEGER` clamp
(`count > MAX_SAFE_INTEGER / 8` is stated exactly as `count * 8 >
maxSafeInteger`), map/chan prefixes, `interface` and `any`, the struct
registry recursion (with the type name added to `seen`, and the empty-struct
result `{size: 0, alignment: 1}` produced by `alignOffset 0 1`), and the
pointer-sized fallback for unknown types.  `none` means out of fuel. -/
def getTypeInfoF (reg : Registry) (ptr : Nat) :
    Nat → String → List String → Option TypeSizeInfo
  | 0, _, _ => none
  | fuel + 1, t, seen =>
    if memStr t seen then some ⟨ptr, ptr⟩
    else
      match lookupPairs t (primTable ptr) with
      | some info => some info
      | none =>
        if leadsWith ['*'] t.data || leadsWith ['[', ']'] t.data then some ⟨ptr, ptr⟩
        else
          match (if leadsWith ['['] t.data && hasChar t.data ']' then arrayMatch t.data
                 else none) with
          | some (count, elemChars) =>
            match getTypeInfoF reg ptr fuel (String.mk elemChars) seen with
            | none => none
            | some elemInfo =>
              if count * 8 > maxSafeInteger ∨ count * elemInfo.size > maxSafeInteger then
                some ⟨maxSafeInteger, elemInfo.alignment⟩
              else
                some ⟨count * elemInfo.size, elemInfo.alignment⟩
          | none =>
            if leadsWith ['m', 'a', 'p', '['] t.data
                || leadsWith ['c', 'h', 'a', 'n', ' '] t.data then some ⟨ptr, ptr⟩
            else if t = "interface\x7b\x7d" ∨ t = "any" then some ⟨2 * ptr, ptr⟩
            else
              match lookupPairs t reg with
              | some fs =>
                match structFold (fun tn => getTypeInfoF reg ptr fuel tn (t :: seen)) fs 0 1 with
                | none => none
                | some (cur, maxA) => some ⟨alignOffset cur maxA, maxA⟩
              | none => some ⟨ptr, ptr⟩

/-- Number of registry names not yet on the resolution path. -/
def unseenCount (reg : Registry) (seen : List String) : Nat :=
  ((reg.map Prod.fst).filter (fun n => !memStr n seen)).length

/-- Maximal field type-name length in a field list. -/
def maxTypeLen (fs : List FieldDef) : Nat :=
  fs.foldr (fun f m => max f.typeName.data.length m) 0

/-- Maximal field type-name length over the whole registry. -/
def regW (reg : Registry) : Nat :=
  reg.foldr (fun e m => max (maxTypeLen e.2) m) 0

/-- A fuel bound sufficient for `getTypeInfoF` (proved below). -/
def gbound (reg : Registry) (seen : List String) (t : String) : Nat :=
  (unseenCount reg seen + 1) * (regW reg + 3) + t.data.length + 2

/-- The canonical (total) resolver: `getTypeInfoF` run at the sufficient
fuel bound. -/
def getTypeInfo (reg : Registry) (ptr : Nat) (t : String) (seen : List String) :
    TypeSizeInfo :=
  (getTypeInfoF reg ptr (gbound reg seen t) t seen).getD ⟨ptr, ptr⟩

/-- Result record of `MemoryCalculator.calculateStructSize`. -/
structure StructCalc where
  size : Nat
  alignment : Nat
  fieldOffsets : List Nat
  paddings : List Nat
deriving DecidableEq, Repr

/-- The per-field loop of `calculateStructSize`: returns the final cursor,
the maximum alignment, the field offsets and the paddings inserted before
each field. -/
def calcFields (resolve : String → TypeSizeInfo) :
    List String → Nat → Nat → Nat × Nat × List Nat × List Nat
  | [], cur, maxA => (cur, maxA, [], [])
  | tn :: rest, cur, maxA =>
    let ti := resolve tn
    let aligned := alignOffset cur ti.alignment
    let r := calcFields resolve rest (aligned + ti.size) (max maxA ti.alignment)
    (r.1, r.2.1, aligned :: r.2.2.1, (aligned - cur) :: r.2.2.2)

/-- `MemoryCalculator.calculateStructSize(fields, seen)`: empty input yields
`{size: 0, alignment: 1}`; otherwise run the loop from cursor 0 and maximum
alignment 1, round the final cursor up to the maximum alignment, and append
the trailing padding to the paddings list. -/
def calculateStructSize (reg : Registry) (ptr : Nat) (seen : List String)
    (ts : List String) : StructCalc :=
  if ts.isEmpty then ⟨0, 1, [], []⟩
  else
    let r := calcFields (fun tn => getTypeInfo reg ptr tn seen) ts 0 1
    let total := alignOffset r.1 r.2.1
    ⟨total, r.2.1, r.2.2.1, r.2.2.2 ++ [total - r.1]⟩

/-- Computed per-field layout (`FieldInfo` of `types.ts` plus the cache-line
data attached in `GoParser.calculateStructLayout`; the source-location
`lineNumber` pass-through is omitted). -/
structure FieldInfo where
  name : String
  typeName : String
  offset : Nat
  size : Nat
  alignment : Nat
  paddingAfter : Int
  cacheLineStart : Int
  cacheLineEnd : Int
  crossesCacheLine : Bool
deriving DecidableEq, Repr

/-- The `fields.map((field, idx) => ...)` of `GoParser.calculateStructLayout`,
walking the declared fields and the computed offsets in lockstep.
`paddingAfter` of a non-last field is the gap to the next offset; the last
field receives the trailing padding `fp`.  Cache-line start/end are floor
divisions by 64 (as `Int`: a zero-sized field at offset 0 yields `-1`). -/
def buildInfos (resolve : String → TypeSizeInfo) :
    List FieldDef → List Nat → Nat → List FieldInfo
  | f :: rest, o :: orest, fp =>
    let ti := resolve f.typeName
    let pa : Int :=
      match orest with
      | o2 :: _ => (o2 : Int) - ((o : Int) + ti.size)
      | [] => (fp : Int)
    let cs : Int := Int.fdiv o CACHE_LINE_SIZE
    let ce : Int := Int.fdiv ((o : Int) + ti.size - 1) CACHE_LINE_SIZE
    ⟨f.name, f.typeName, o, ti.size, ti.alignment, pa, cs, ce, decide (cs ≠ ce)⟩ ::
      buildInfos resolve rest orest fp
  | [], _, _ => []
  | _ :: _, [], _ => []

/-- `CacheLineInfo` of `types.ts`. -/
structure CacheLineInfo where
  lineNumber : Nat
  startOffset : Int
  endOffset : Int
  fields : List String
  bytesUsed : Int
  bytesPadding : Int
deriving DecidableEq, Repr

/-- `GoParser.calculateCacheLines`: one record per 64-byte window of
`[0, totalSize)`, the last window truncated at `totalSize - 1`; each field
overlapping the window contributes its overlap length to `bytesUsed`. -/
def calculateCacheLines (fields : List FieldInfo) (totalSize : Nat) :
    List CacheLineInfo :=
  (List.range ((totalSize + CACHE_LINE_SIZE - 1) / CACHE_LINE_SIZE)).map fun (lineNum : Nat) =>
    let startOffset : Int := (lineNum : Int) * CACHE_LINE_SIZE
    let endOffset : Int := min (startOffset + CACHE_LINE_SIZE - 1) ((totalSize : Int) - 1)
    let inLine := fields.filter fun f =>
      decide ((f.offset : Int) ≤ endOffset ∧ (f.offset : Int) + f.size - 1 ≥ startOffset)
    let bytesUsed : Int :=
      (inLine.map fun f =>
        min ((f.offset : Int) + f.size - 1) endOffset - max ((f.offset : Int)) startOffset + 1).sum
    ⟨lineNum, startOffset, endOffset, inLine.map (·.name), bytesUsed,
      (endOffset - startOffset + 1) - bytesUsed⟩

/-- `StructInfo` of `types.ts` (source line range omitted). -/
structure StructInfo where
  name : String
  fields : List FieldInfo
  totalSize : Nat
  totalPadding : Nat
  alignment : Nat
  cacheLines : List CacheLineInfo
  cacheLinesCrossed : Nat
  hotFields : List String
deriving DecidableEq, Repr

/-- `GoParser.calculateStructLayout`: empty structs get the all-zero record;
otherwise compute the raw layout, attach per-field info (the trailing padding
is `paddings[fields.length]`), sum the paddings, segment the cache lines, and
report `cacheLinesCrossed = ceil(totalSize / 64)`. -/
def calculateStructLayout (reg : Registry) (ptr : Nat) (name : String)
    (fields : List FieldDef) : StructInfo :=
  if fields.isEmpty then ⟨name, [], 0, 0, 1, [], 0, []⟩
  else
    let layout := calculateStructSize reg ptr [] (fields.map (·.typeName))
    let infos := buildInfos (fun tn => getTypeInfo reg ptr tn []) fields
      layout.fieldOffsets (layout.paddings.getD fields.length 0)
    ⟨name, infos, layout.size, layout.paddings.sum, layout.alignment,
      calculateCacheLines infos layout.size,
      (layout.size + CACHE_LINE_SIZE - 1) / CACHE_LINE_SIZE,
      (infos.filter (·.crossesCacheLine)).map (·.name)⟩

/-- The comparator of `StructOptimizer.optimizeStruct` as a `Bool` order:
`a` may precede `b` iff the comparator value `(a, b)` is non-positive, i.e.
alignment descending, then size descending. -/
def fieldLe (a b : FieldInfo) : Bool :=
  if a.alignment = b.alignment then b.size ≤ a.size else b.alignment ≤ a.alignment

/-- Stable insertion into a `fieldLe`-sorted list. -/
def insertField (x : FieldInfo) : List FieldInfo → List FieldInfo
  | [] => [x]
  | y :: ys => if fieldLe x y then x :: y :: ys else y :: insertField x ys

/-- The stable sort `[...struct.fields].sort(comparator)` (ES2019 `sort` is
stable; any stable sort realises the same permutation). -/
def sortFields : List FieldInfo → List FieldInfo
  | [] => []
  | x :: xs => insertField x (sortFields xs)

/-- `OptimizationResult` of `types.ts` (`bytesSaved` as `Int`: a JS
subtraction). -/
structure OptimizationResult where
  originalSize : Nat
  optimizedSize : Nat
  bytesSaved : Int
  reorderedFields : List String
deriving DecidableEq, Repr

/-- `StructOptimizer.optimizeStruct`. -/
def optimizeStruct (reg : Registry) (ptr : Nat) (s : StructInfo) :
    OptimizationResult :=
  if s.fields.isEmpty then ⟨0, 0, 0, []⟩
  else
    let sorted := sortFields s.fields
    let optimizedLayout := calculateStructSize reg ptr [] (sorted.map (·.typeName))
    ⟨s.totalSize, optimizedLayout.size, (s.totalSize : Int) - optimizedLayout.size,
      sorted.map (·.name)⟩

/-- The field permutation proposed by the optimizer, as declared fields (the
order named by `OptimizationResult.reorderedFields`). -/
def optimizedOrder (s : StructInfo) : List FieldDef :=
  (sortFields s.fields).map fun f => ⟨f.name, f.typeName⟩

/-- The offset-plus-size-plus-trailing-padding of the last field, if any. -/
def lastFieldSum (s : StructInfo) : Option Int :=
  s.fields.getLast?.map fun lf => (lf.offset : Int) + lf.size + lf.paddingAfter

def c1Fields : List FieldDef :=
  [⟨"Active", "bool"⟩, ⟨"UserID", "uint64"⟩, ⟨"Name", "string"⟩,
   ⟨"Age", "uint8"⟩, ⟨"Balance", "float64"⟩]

/-- Claim C1: on amd64 (pointer width 8) the field list Active:bool,
UserID:uint64, Name:string, Age:uint8, Balance:float64 gets offsets
0, 8, 16, 32, 40 with total size 48 and total padding 14, and the optimizer
produces the order Name, UserID, Balance, Active, Age whose recomputed layout
has offsets 0, 16, 24, 32, 33, size 40 and padding 6, reporting
optimizedSize 40 and bytesSaved 8. -/
theorem claim_C1 :
    ((calculateStructLayout [] 8 "User" c1Fields).fields.map (·.offset) = [0, 8, 16, 32, 40]
      ∧ (calculateStructLayout [] 8 "User" c1Fields).totalSize = 48
      ∧ (calculateStructLayout [] 8 "User" c1Fields).totalPadding = 14)
    ∧ ((optimizeStruct [] 8 (calculateStructLayout [] 8 "User" c1Fields)).reorderedFields
        = ["Name", "UserID", "Balance", "Active", "Age"]
      ∧ (calculateStructSize [] 8 []
          ((optimizedOrder (calculateStructLayout [] 8 "User" c1Fields)).map (·.typeName))).fieldOffsets
        = [0, 16, 24, 32, 33]
      ∧ (calculateStructSize [] 8 []
          ((optimizedOrder (calculateStructLayout [] 8 "User" c1Fields)).map (·.typeName))).size = 40
      ∧ (calculateStructSize [] 8 []
          ((optimizedOrder (calculateStructLayout [] 8 "User" c1Fields)).map (·.typeName))).paddings.sum = 6
      ∧ (optimizeStruct [] 8 (calculateStructLayout [] 8 "User" c1Fields)).optimizedSize = 40
      ∧ (optimizeStruct [] 8 (calculateStructLayout [] 8 "User" c1Fields)).bytesSaved = 8) := by
  decide

/-- Claim C2: in a record with a 60-byte field followed by an 8-byte field
(here [60]byte and [8]byte, both alignment 1), the computed layout reports the
second field with crossesCacheLine true, cacheLineStart 0 and cacheLineEnd 1. -/
theorem claim_C2 :
    ((calculateStructLayout [] 8 "CacheTest" [⟨"big", "[60]byte"⟩, ⟨"tail", "[8]byte"⟩]).fields.map
      fun f => (f.crossesCacheLine, f.cacheLineStart, f.cacheLineEnd))
      = [(false, 0, 0), (true, 0, 1)] := by
  decide

/-- Claim C3, counterexample to the claim as stated: for a struct with a
single bool field the one cache-line segment is the byte range 0..0, whose
bytesUsed plus bytesPadding is 1, not the fixed 64-byte window size, so the
segments do not partition the range into fixed 64-byte windows. -/
theorem claim_C3_counterexample :
    ((calculateStructLayout [] 8 "Tiny" [⟨"a", "bool"⟩]).cacheLines.map
      fun seg => (seg.startOffset, seg.endOffset, seg.bytesUsed, seg.bytesPadding))
      = [(0, 0, 1, 0)]
    ∧ (calculateStructLayout [] 8 "Tiny" [⟨"a", "bool"⟩]).totalSize = 1
    ∧ ((1 : Int) + 0 ≠ (CACHE_LINE_SIZE : Int)) := by
  decide

/-- Claim C7, counterexample to the claim as stated: for
[1125899906842624]bool neither N nor N times the element size (1) exceeds
MAX_SAFE_INTEGER, yet the resolver clamps the size to MAX_SAFE_INTEGER
because the code tests N against MAX_SAFE_INTEGER / 8, not MAX_SAFE_INTEGER. -/
theorem claim_C7_counterexample :
    (getTypeInfo [] 8 "[1125899906842624]bool" []).size = maxSafeInteger
    ∧ 1125899906842624 ≤ maxSafeInteger
    ∧ 1125899906842624 * (getTypeInfo [] 8 "bool" []).size ≤ maxSafeInteger
    ∧ (getTypeInfo [] 8 "[1125899906842624]bool" []).size
        ≠ 1125899906842624 * (getTypeInfo [] 8 "bool" []).size := by
  decide

theorem leadDigits_length (l : List Char) :
    (leadDigits l).1.length + (leadDigits l).2.length = l.length := by
  induction l with
  | nil => simp [leadDigits]
  | cons c rest ih =>
    simp only [leadDigits]
    split
    · simp only [List.length_cons]; omega
    · simp

theorem arrayMatch_length (l : List Char) {n : Nat} {tail : List Char}
    (h : arrayMatch l = some (n, tail)) : tail.length < l.length := by
  induction l with
  | nil => simp [arrayMatch] at h
  | cons c rest ih =>
    have hlc : (c :: rest).length = rest.length + 1 := rfl
    simp only [arrayMatch] at h
    split at h
    · split at h
      · rename_i after hp2
        split at h
        · have := ih h; omega
        · simp only [Option.some.injEq, Prod.mk.injEq] at h
          obtain ⟨h1, h2⟩ := h
          subst h2
          have hlen := leadDigits_length rest
          rw [hp2] at hlen
          simp only [List.length_cons] at hlen
          omega
      · have := ih h; omega
    · have := ih h; omega

theorem structFold_isSome (resolve : String → Option TypeSizeInfo)
    (fs : List FieldDef) (h : ∀ f ∈ fs, (resolve f.typeName).isSome = true) :
    ∀ cur maxA, (structFold resolve fs cur maxA).isSome = true := by
  induction fs with
  | nil => intro cur maxA; simp [structFold]
  | cons f rest ih =>
    intro cur maxA
    have hf := h f (by simp)
    simp only [structFold]
    cases hr : resolve f.typeName with
    | none => rw [hr] at hf; simp at hf
    | some ti => exact ih (fun g hg => h g (by simp [hg])) _ _

theorem structFold_mono (r₁ r₂ : String → Option TypeSizeInfo)
    (hmono : ∀ tn v, r₁ tn = some v → r₂ tn = some v)
    (fs : List FieldDef) :
    ∀ cur maxA s, structFold r₁ fs cur maxA = some s → structFold r₂ fs cur maxA = some s := by
  induction fs with
  | nil => intro cur maxA s h; simpa [structFold] using h
  | cons f rest ih =>
    intro cur maxA s h
    simp only [structFold] at h ⊢
    cases hr : r₁ f.typeName with
    | none => rw [hr] at h; simp at h
    | some ti =>
      rw [hr] at h
      rw [hmono _ _ hr]
      exact ih _ _ _ h

theorem structFold_maxA_le (resolve : String → Option TypeSizeInfo)
    (fs : List FieldDef) :
    ∀ cur maxA s, structFold resolve fs cur maxA = some s → maxA ≤ s.2 := by
  induction fs with
  | nil =>
    intro cur maxA s h
    simp only [structFold, Option.some.injEq] at h
    subst h; simp
  | cons f rest ih =>
    intro cur maxA s h
    simp only [structFold] at h
    cases hr : resolve f.typeName with
    | none => rw [hr] at h; simp at h
    | some ti =>
      rw [hr] at h
      have := ih _ _ _ h
      omega

theorem lookupPairs_key_mem {β : Type} {t : String} {l : List (String × β)} {v : β}
    (h : lookupPairs t l = some v) : t ∈ l.map Prod.fst := by
  induction l with
  | nil => simp [lookupPairs] at h
  | cons kv rest ih =>
    obtain ⟨k, w⟩ := kv
    simp only [lookupPairs] at h
    split at h
    · rename_i hk; simp [hk]
    · simpa using Or.inr (ih h)

theorem lookupPairs_val_mem {β : Type} {t : String} {l : List (String × β)} {v : β}
    (h : lookupPairs t l = some v) : ∃ k, (k, v) ∈ l := by
  induction l with
  | nil => simp [lookupPairs] at h
  | cons kv rest ih =>
    obtain ⟨k, w⟩ := kv
    simp only [lookupPairs] at h
    split at h
    · obtain rfl := (Option.some.injEq _ _).mp h
      exact ⟨k, by simp⟩
    · obtain ⟨k', hk'⟩ := ih h
      exact ⟨k', by simp [hk']⟩

theorem mem_le_maxTypeLen {f : FieldDef} {fs : List FieldDef} (h : f ∈ fs) :
    f.typeName.data.length ≤ maxTypeLen fs := by
  induction fs with
  | nil => simp at h
  | cons g rest ih =>
    simp only [maxTypeLen, List.foldr_cons]
    rcases List.mem_cons.mp h with rfl | hmem
    · exact Nat.le_max_left _ _
    · have := ih hmem
      unfold maxTypeLen at this
      omega

theorem mem_le_regW {k : String} {fs : List FieldDef} {reg : Registry}
    (h : (k, fs) ∈ reg) : maxTypeLen fs ≤ regW reg := by
  induction reg with
  | nil => simp at h
  | cons e rest ih =>
    simp only [regW, List.foldr_cons]
    rcases List.mem_cons.mp h with rfl | hmem
    · exact Nat.le_max_left _ _
    · have := ih hmem
      unfold regW at this
      omega

theorem memStr_cons (n t : String) (seen : List String) :
    memStr n (t :: seen) = if t = n then true else memStr n seen := rfl

theorem filter_unseen_mono (ns : List String) (t : String) (seen : List String) :
    (ns.filter fun n => !memStr n (t :: seen)).length
      ≤ (ns.filter fun n => !memStr n seen).length := by
  apply List.Sublist.length_le
  apply List.monotone_filter_right
  intro a ha
  simp only [Bool.not_eq_true'] at ha ⊢
  rw [memStr_cons] at ha
  split at ha
  · exact absurd ha (by simp)
  · exact ha

theorem filter_unseen_lt (ns : List String) (t : String) (seen : List String)
    (ht : t ∈ ns) (hs : memStr t seen = false) :
    (ns.filter fun n => !memStr n (t :: seen)).length
      < (ns.filter fun n => !memStr n seen).length := by
  induction ns with
  | nil => simp at ht
  | cons n rest ih =>
    rw [List.filter_cons, List.filter_cons]
    by_cases hEq : t = n
    · subst hEq
      have h1 : ¬((!memStr t (t :: seen)) = true) := by
        simp [memStr_cons]
      have h2 : (!memStr t seen) = true := by simp [hs]
      rw [if_neg h1, if_pos h2]
      have := filter_unseen_mono rest t seen
      simp only [List.length_cons]
      omega
    · have hcond : memStr n (t :: seen) = memStr n seen := by
        rw [memStr_cons, if_neg hEq]
      rw [hcond]
      rcases List.mem_cons.mp ht with rfl | hmem
      · exact absurd rfl hEq
      · have := ih hmem
        by_cases hb : (!memStr n seen) = true
        · rw [if_pos hb, if_pos hb]
          simp only [List.length_cons]
          omega
        · rw [if_neg hb, if_neg hb]
          exact this

theorem gbound_pos (reg : Registry) (seen : List String) (t : String) :
    2 ≤ gbound reg seen t := by
  unfold gbound
  have := Nat.mul_pos (Nat.succ_pos (unseenCount reg seen))
    (show 0 < regW reg + 3 by omega)
  omega

/-- One unfolding step of `getTypeInfoF` at successor fuel. -/
theorem getTypeInfoF_succ (reg : Registry) (ptr fuel : Nat) (t : String)
    (seen : List String) :
    getTypeInfoF reg ptr (fuel + 1) t seen =
      (if memStr t seen then some ⟨ptr, ptr⟩
       else
        match lookupPairs t (primTable ptr) with
        | some info => some info
        | none =>
          if leadsWith ['*'] t.data || leadsWith ['[', ']'] t.data then some ⟨ptr, ptr⟩
          else
            match (if leadsWith ['['] t.data && hasChar t.data ']' then arrayMatch t.data
                   else none) with
            | some (count, elemChars) =>
              match getTypeInfoF reg ptr fuel (String.mk elemChars) seen with
              | none => none
              | some elemInfo =>
                if count * 8 > maxSafeInteger ∨ count * elemInfo.size > maxSafeInteger then
                  some ⟨maxSafeInteger, elemInfo.alignment⟩
                else
                  some ⟨count * elemInfo.size, elemInfo.alignment⟩
            | none =>
              if leadsWith ['m', 'a', 'p', '['] t.data
                  || leadsWith ['c', 'h', 'a', 'n', ' '] t.data then some ⟨ptr, ptr⟩
              else if t = "interface\x7b\x7d" ∨ t = "any" then some ⟨2 * ptr, ptr⟩
              else
                match lookupPairs t reg with
                | some fs =>
                  match structFold (fun tn => getTypeInfoF reg ptr fuel tn (t :: seen)) fs 0 1 with
                  | none => none
                  | some (cur, maxA) => some ⟨alignOffset cur maxA, maxA⟩
                | none => some ⟨ptr, ptr⟩) := rfl

theorem getTypeInfoF_mono (reg : Registry) (ptr : Nat) :
    ∀ fuel t seen v, getTypeInfoF reg ptr fuel t seen = some v →
      getTypeInfoF reg ptr (fuel + 1) t seen = some v := by
  intro fuel
  induction fuel with
  | zero => intro t seen v h; simp [getTypeInfoF] at h
  | succ fuel ih =>
    intro t seen v h
    rw [getTypeInfoF_succ] at h ⊢
    by_cases h1 : memStr t seen = true
    · rw [if_pos h1] at h ⊢; exact h
    · rw [if_neg h1] at h ⊢
      cases hp : lookupPairs t (primTable ptr) with
      | some info =>
        rw [hp] at h
        dsimp only [] at h ⊢
        exact h
      | none =>
        rw [hp] at h
        dsimp only [] at h ⊢
        by_cases h2 : (leadsWith ['*'] t.data || leadsWith ['[', ']'] t.data) = true
        · rw [if_pos h2] at h ⊢; exact h
        · rw [if_neg h2] at h ⊢
          cases ha : (if leadsWith ['['] t.data && hasChar t.data ']' then arrayMatch t.data
                     else none) with
          | some pr =>
            obtain ⟨count, elemChars⟩ := pr
            rw [ha] at h
            dsimp only [] at h ⊢
            cases he : getTypeInfoF reg ptr fuel (String.mk elemChars) seen with
            | none => rw [he] at h; exact absurd h (by simp)
            | some ei =>
              rw [he] at h
              rw [ih _ _ _ he]
              exact h
          | none =>
            rw [ha] at h
            dsimp only [] at h ⊢
            by_cases h3 : (leadsWith ['m', 'a', 'p', '['] t.data
                || leadsWith ['c', 'h', 'a', 'n', ' '] t.data) = true
            · rw [if_pos h3] at h ⊢; exact h
            · rw [if_neg h3] at h ⊢
              by_cases h4 : t = "interface\x7b\x7d" ∨ t = "any"
              · rw [if_pos h4] at h ⊢; exact h
              · rw [if_neg h4] at h ⊢
                cases hr : lookupPairs t reg with
                | none =>
                  rw [hr] at h
                  dsimp only [] at h ⊢
                  exact h
                | some fs =>
                  rw [hr] at h
                  dsimp only [] at h ⊢
                  cases hsf : structFold
                      (fun tn => getTypeInfoF reg ptr fuel tn (t :: seen)) fs 0 1 with
                  | none => rw [hsf] at h; exact absurd h (by simp)
                  | some s =>
                    obtain ⟨cur, maxA⟩ := s
                    have hsf' := structFold_mono
                      (fun tn => getTypeInfoF reg ptr fuel tn (t :: seen))
                      (fun tn => getTypeInfoF reg ptr (fuel + 1) tn (t :: seen))
                      (fun tn w hw => ih tn _ w hw) fs 0 1 _ hsf
                    rw [hsf] at h
                    rw [hsf']
                    exact h

theorem getTypeInfoF_mono_le (reg : Registry) (ptr : Nat) {fuel fuel' : Nat}
    (hle : fuel ≤ fuel') {t : String} {seen : List String} {v : TypeSizeInfo}
    (h : getTypeInfoF reg ptr fuel t seen = some v) :
    getTypeInfoF reg ptr fuel' t seen = some v := by
  induction fuel' with
  | zero =>
    obtain rfl : fuel = 0 := Nat.le_zero.mp hle
    exact h
  | succ n ih =>
    rcases Nat.lt_or_ge fuel (n + 1) with hlt | hge
    · exact getTypeInfoF_mono reg ptr n t seen v (ih (Nat.lt_succ_iff.mp hlt))
    · obtain rfl : fuel = n + 1 := Nat.le_antisymm hle hge
      exact h

theorem getTypeInfoF_isSome (reg : Registry) (ptr : Nat) :
    ∀ fuel t seen, gbound reg seen t ≤ fuel →
      (getTypeInfoF reg ptr fuel t seen).isSome = true := by
  intro fuel
  induction fuel with
  | zero =>
    intro t seen hb
    have := gbound_pos reg seen t
    omega
  | succ fuel ih =>
    intro t seen hb
    rw [getTypeInfoF_succ]
    by_cases h1 : memStr t seen = true
    · rw [if_pos h1]; rfl
    · rw [if_neg h1]
      cases hp : lookupPairs t (primTable ptr) with
      | some info => dsimp only []; rfl
      | none =>
        dsimp only []
        by_cases h2 : (leadsWith ['*'] t.data || leadsWith ['[', ']'] t.data) = true
        · rw [if_pos h2]; rfl
        · rw [if_neg h2]
          cases ha : (if leadsWith ['['] t.data && hasChar t.data ']' then arrayMatch t.data
                     else none) with
          | some pr =>
            obtain ⟨count, elemChars⟩ := pr
            dsimp only []
            have helem : arrayMatch t.data = some (count, elemChars) := by
              by_cases hg : (leadsWith ['['] t.data && hasChar t.data ']') = true
              · rwa [if_pos hg] at ha
              · rw [if_neg hg] at ha; exact absurd ha (by simp)
            have hlt : elemChars.length < t.data.length := arrayMatch_length _ helem
            have hbe : gbound reg seen (String.mk elemChars) ≤ fuel := by
              have hdata : (String.mk elemChars).data = elemChars := rfl
              unfold gbound at hb ⊢
              rw [hdata]
              omega
            have := ih (String.mk elemChars) seen hbe
            cases he : getTypeInfoF reg ptr fuel (String.mk elemChars) seen with
            | none => rw [he] at this; simp at this
            | some ei =>
              dsimp only []
              split <;> rfl
          | none =>
            dsimp only []
            by_cases h3 : (leadsWith ['m', 'a', 'p', '['] t.data
                || leadsWith ['c', 'h', 'a', 'n', ' '] t.data) = true
            · rw [if_pos h3]; rfl
            · rw [if_neg h3]
              by_cases h4 : t = "interface\x7b\x7d" ∨ t = "any"
              · rw [if_pos h4]; rfl
              · rw [if_neg h4]
                cases hr : lookupPairs t reg with
                | none => dsimp only []; rfl
                | some fs =>
                  dsimp only []
                  have hsf : (structFold
                      (fun tn => getTypeInfoF reg ptr fuel tn (t :: seen)) fs 0 1).isSome
                        = true := by
                    apply structFold_isSome
                    intro f hf
                    apply ih
                    have htk : t ∈ reg.map Prod.fst := lookupPairs_key_mem hr
                    have hms : memStr t seen = false := by
                      cases hmem : memStr t seen
                      · rfl
                      · exact absurd hmem h1
                    have hu : unseenCount reg (t :: seen) < unseenCount reg seen :=
                      filter_unseen_lt _ _ _ htk hms
                    have hlen : f.typeName.data.length ≤ regW reg := by
                      obtain ⟨k, hk⟩ := lookupPairs_val_mem hr
                      exact le_trans (mem_le_maxTypeLen hf) (mem_le_regW hk)
                    unfold gbound at hb ⊢
                    have hmul : (unseenCount reg (t :: seen) + 1) * (regW reg + 3)
                        ≤ unseenCount reg seen * (regW reg + 3) :=
                      Nat.mul_le_mul_right _ (by omega)
                    have hsplit : (unseenCount reg seen + 1) * (regW reg + 3)
                        = unseenCount reg seen * (regW reg + 3) + (regW reg + 3) := by ring
                    omega
                  cases hsf2 : structFold
                      (fun tn => getTypeInfoF reg ptr fuel tn (t :: seen)) fs 0 1 with
                  | none => rw [hsf2] at hsf; simp at hsf
                  | some s =>
                    obtain ⟨cur, maxA⟩ := s
                    rfl

theorem getTypeInfo_eq_of_F {reg : Registry} {ptr fuel : Nat} {t : String}
    {seen : List String} {v : TypeSizeInfo}
    (h : getTypeInfoF reg ptr fuel t seen = some v) :
    getTypeInfo reg ptr t seen = v := by
  have hs := getTypeInfoF_isSome reg ptr (gbound reg seen t) t seen (le_refl _)
  cases hw : getTypeInfoF reg ptr (gbound reg seen t) t seen with
  | none => rw [hw] at hs; simp at hs
  | some w =>
    have h1 := getTypeInfoF_mono_le reg ptr (Nat.le_max_left fuel (gbound reg seen t)) h
    have h2 := getTypeInfoF_mono_le reg ptr (Nat.le_max_right fuel (gbound reg seen t)) hw
    rw [h1] at h2
    obtain rfl := (Option.some.injEq _ _).mp h2
    unfold getTypeInfo
    rw [hw]
    rfl

theorem primTable_align_pos (ptr : Nat) (hp : 1 ≤ ptr) :
    ∀ q ∈ primTable ptr, 1 ≤ q.2.alignment := by
  intro q hq
  simp only [primTable, List.mem_cons, List.not_mem_nil, or_false] at hq
  rcases hq with rfl|rfl|rfl|rfl|rfl|rfl|rfl|rfl|rfl|rfl|rfl|rfl|rfl|rfl|rfl|rfl|rfl|rfl|rfl
    <;> simp <;> omega

theorem getTypeInfoF_align_pos (reg : Registry) (ptr : Nat) (hptr : 1 ≤ ptr) :
    ∀ fuel t seen v, getTypeInfoF reg ptr fuel t seen = some v → 1 ≤ v.alignment := by
  intro fuel
  induction fuel with
  | zero => intro t seen v h; simp [getTypeInfoF] at h
  | succ fuel ih =>
    intro t seen v h
    rw [getTypeInfoF_succ] at h
    by_cases h1 : memStr t seen = true
    · rw [if_pos h1] at h
      obtain rfl := (Option.some.injEq _ _).mp h
      exact hptr
    · rw [if_neg h1] at h
      cases hp : lookupPairs t (primTable ptr) with
      | some info =>
        rw [hp] at h
        dsimp only [] at h
        obtain rfl := (Option.some.injEq _ _).mp h
        obtain ⟨k, hk⟩ := lookupPairs_val_mem hp
        exact primTable_align_pos ptr hptr _ hk
      | none =>
        rw [hp] at h
        dsimp only [] at h
        by_cases h2 : (leadsWith ['*'] t.data || leadsWith ['[', ']'] t.data) = true
        · rw [if_pos h2] at h
          obtain rfl := (Option.some.injEq _ _).mp h
          exact hptr
        · rw [if_neg h2] at h
          cases ha : (if leadsWith ['['] t.data && hasChar t.data ']' then arrayMatch t.data
                     else none) with
          | some pr =>
            obtain ⟨count, elemChars⟩ := pr
            rw [ha] at h
            dsimp only [] at h
            cases he : getTypeInfoF reg ptr fuel (String.mk elemChars) seen with
            | none => rw [he] at h; exact absurd h (by simp)
            | some ei =>
              rw [he] at h
              dsimp only [] at h
              have hei := ih _ _ _ he
              split at h <;> (obtain rfl := (Option.some.injEq _ _).mp h; exact hei)
          | none =>
            rw [ha] at h
            dsimp only [] at h
            by_cases h3 : (leadsWith ['m', 'a', 'p', '['] t.data
                || leadsWith ['c', 'h', 'a', 'n', ' '] t.data) = true
            · rw [if_pos h3] at h
              obtain rfl := (Option.some.injEq _ _).mp h
              exact hptr
            · rw [if_neg h3] at h
              by_cases h4 : t = "interface\x7b\x7d" ∨ t = "any"
              · rw [if_pos h4] at h
                obtain rfl := (Option.some.injEq _ _).mp h
                exact hptr
              · rw [if_neg h4] at h
                cases hr : lookupPairs t reg with
                | none =>
                  rw [hr] at h
                  dsimp only [] at h
                  obtain rfl := (Option.some.injEq _ _).mp h
                  exact hptr
                | some fs =>
                  rw [hr] at h
                  dsimp only [] at h
                  cases hsf : structFold
                      (fun tn => getTypeInfoF reg ptr fuel tn (t :: seen)) fs 0 1 with
                  | none => rw [hsf] at h; exact absurd h (by simp)
                  | some s =>
                    obtain ⟨cur, maxA⟩ := s
                    rw [hsf] at h
                    dsimp only [] at h
                    obtain rfl := (Option.some.injEq _ _).mp h
                    exact structFold_maxA_le _ _ _ _ _ hsf

theorem getTypeInfo_align_pos (reg : Registry) (ptr : Nat) (t : String)
    (seen : List String) (hptr : 1 ≤ ptr) :
    1 ≤ (getTypeInfo reg ptr t seen).alignment := by
  unfold getTypeInfo
  cases hw : getTypeInfoF reg ptr (gbound reg seen t) t seen with
  | none => simpa using hptr
  | some w => simpa using getTypeInfoF_align_pos reg ptr hptr _ _ _ _ hw

theorem getTypeInfo_seen (reg : Registry) (ptr : Nat) (t : String)
    (seen : List String) (h : memStr t seen = true) :
    getTypeInfo reg ptr t seen = ⟨ptr, ptr⟩ := by
  unfold getTypeInfo
  obtain ⟨k, hk⟩ : ∃ k, gbound reg seen t = k + 1 :=
    ⟨gbound reg seen t - 1, by have := gbound_pos reg seen t; omega⟩
  rw [hk, getTypeInfoF_succ, if_pos h]
  rfl

theorem getTypeInfo_unknown (reg : Registry) (ptr : Nat) (t : String)
    (seen : List String)
    (hprim : lookupPairs t (primTable ptr) = none)
    (hstar : leadsWith ['*'] t.data = false)
    (hslice : leadsWith ['[', ']'] t.data = false)
    (harr : arrayMatch t.data = none)
    (hmap : leadsWith ['m', 'a', 'p', '['] t.data = false)
    (hchan : leadsWith ['c', 'h', 'a', 'n', ' '] t.data = false)
    (hiface : t ≠ "interface\x7b\x7d") (hany : t ≠ "any")
    (hreg : lookupPairs t reg = none) :
    getTypeInfo reg ptr t seen = ⟨ptr, ptr⟩ := by
  unfold getTypeInfo
  obtain ⟨k, hk⟩ : ∃ k, gbound reg seen t = k + 1 :=
    ⟨gbound reg seen t - 1, by have := gbound_pos reg seen t; omega⟩
  rw [hk, getTypeInfoF_succ]
  by_cases h1 : memStr t seen = true
  · rw [if_pos h1]; rfl
  · rw [if_neg h1, hprim]
    dsimp only []
    rw [if_neg (by simp [hstar, hslice])]
    have hifn : (if leadsWith ['['] t.data && hasChar t.data ']' then arrayMatch t.data
        else none) = (none : Option (Nat × List Char)) := by
      split
      · exact harr
      · rfl
    rw [hifn]
    dsimp only []
    rw [if_neg (by simp [hmap, hchan])]
    rw [if_neg (by simp [hiface, hany])]
    rw [hreg]
    rfl

theorem getTypeInfo_array (reg : Registry) (ptr : Nat) (t : String)
    (seen : List String) (count : Nat) (elemChars : List Char)
    (hseen : memStr t seen = false)
    (hprim : lookupPairs t (primTable ptr) = none)
    (hstar : leadsWith ['*'] t.data = false)
    (hslice : leadsWith ['[', ']'] t.data = false)
    (hlead : leadsWith ['['] t.data = true)
    (hhas : hasChar t.data ']' = true)
    (harr : arrayMatch t.data = some (count, elemChars)) :
    getTypeInfo reg ptr t seen =
      (if count * 8 > maxSafeInteger
          ∨ count * (getTypeInfo reg ptr (String.mk elemChars) seen).size > maxSafeInteger
       then ⟨maxSafeInteger, (getTypeInfo reg ptr (String.mk elemChars) seen).alignment⟩
       else ⟨count * (getTypeInfo reg ptr (String.mk elemChars) seen).size,
             (getTypeInfo reg ptr (String.mk elemChars) seen).alignment⟩) := by
  have hlt : elemChars.length < t.data.length := arrayMatch_length _ harr
  have hbe : gbound reg seen (String.mk elemChars) ≤ gbound reg seen t - 1 := by
    have hdata : (String.mk elemChars).data = elemChars := rfl
    unfold gbound
    rw [hdata]
    omega
  have hsome := getTypeInfoF_isSome reg ptr
    (gbound reg seen (String.mk elemChars)) (String.mk elemChars) seen (le_refl _)
  cases hw : getTypeInfoF reg ptr (gbound reg seen (String.mk elemChars))
      (String.mk elemChars) seen with
  | none => rw [hw] at hsome; simp at hsome
  | some w =>
    have hcanon : getTypeInfo reg ptr (String.mk elemChars) seen = w :=
      getTypeInfo_eq_of_F hw
    obtain ⟨k, hk⟩ : ∃ k, gbound reg seen t = k + 1 :=
      ⟨gbound reg seen t - 1, by have := gbound_pos reg seen t; omega⟩
    have hwk : getTypeInfoF reg ptr k (String.mk elemChars) seen = some w :=
      getTypeInfoF_mono_le reg ptr (by omega) hw
    conv_lhs => rw [getTypeInfo]
    rw [hk, getTypeInfoF_succ]
    rw [if_neg (by rw [hseen]; exact Bool.false_ne_true), hprim]
    dsimp only []
    rw [if_neg (by simp [hstar, hslice])]
    rw [if_pos (by simp [hlead, hhas]), harr]
    dsimp only []
    rw [hwk]
    dsimp only []
    rw [hcanon]
    split <;> rfl

/-- Claim C6: resolving a type name already on the current resolution path
returns the pointer-sized fallback immediately, and the resolver terminates
(the fuel bound `gbound` is sufficient) for every registry, in particular for
the mutually-referencing registry A with next *B and B with prev *A, whose
types both resolve to size 8, alignment 8. -/
theorem claim_C6 :
    (∀ (reg : Registry) (arch : Architecture) (t : String) (seen : List String),
      memStr t seen = true →
        getTypeInfo reg (pointerSize arch) t seen = ⟨pointerSize arch, pointerSize arch⟩)
    ∧ (∀ (reg : Registry) (arch : Architecture) (t : String) (seen : List String),
        (getTypeInfoF reg (pointerSize arch) (gbound reg seen t) t seen).isSome = true)
    ∧ (getTypeInfo [("A", [⟨"next", "*B"⟩]), ("B", [⟨"prev", "*A"⟩])] 8 "A" [] = ⟨8, 8⟩
      ∧ getTypeInfo [("A", [⟨"next", "*B"⟩]), ("B", [⟨"prev", "*A"⟩])] 8 "B" [] = ⟨8, 8⟩) :=
  ⟨fun reg arch t seen h => getTypeInfo_seen reg (pointerSize arch) t seen h,
   fun reg arch t seen => getTypeInfoF_isSome reg (pointerSize arch) _ t seen (le_refl _),
   by decide, by decide⟩

/-- Witness for claim C6: the cycle branch at a concrete name on the path,
and fuel sufficiency at the mutually-referencing registry. -/
theorem claim_C6_witness :
    (memStr "Node" ["Node"] = true ∧ getTypeInfo [] 8 "Node" ["Node"] = ⟨8, 8⟩)
    ∧ (getTypeInfoF [("A", [⟨"next", "*B"⟩]), ("B", [⟨"prev", "*A"⟩])] 8
        (gbound [("A", [⟨"next", "*B"⟩]), ("B", [⟨"prev", "*A"⟩])] [] "A") "A" []).isSome
        = true :=
  ⟨⟨by decide, claim_C6.1 [] .amd64 "Node" ["Node"] (by decide)⟩,
   claim_C6.2.1 [("A", [⟨"next", "*B"⟩]), ("B", [⟨"prev", "*A"⟩])] .amd64 "A" []⟩

/-- Claim C8: the resolver always produces a result (the fuel bound
`gbound` is sufficient for every type expression, registry and architecture),
and any expression that matches no primitive, no prefix form, no array
pattern, no interface form and no registry entry resolves to the
pointer-sized fallback. -/
theorem claim_C8 :
    (∀ (reg : Registry) (arch : Architecture) (t : String) (seen : List String),
      (getTypeInfoF reg (pointerSize arch) (gbound reg seen t) t seen).isSome = true)
    ∧ (∀ (reg : Registry) (arch : Architecture) (t : String) (seen : List String),
        lookupPairs t (primTable (pointerSize arch)) = none →
        leadsWith ['*'] t.data = false →
        leadsWith ['[', ']'] t.data = false →
        arrayMatch t.data = none →
        leadsWith ['m', 'a', 'p', '['] t.data = false →
        leadsWith ['c', 'h', 'a', 'n', ' '] t.data = false →
        t ≠ "interface\x7b\x7d" → t ≠ "any" →
        lookupPairs t reg = none →
        getTypeInfo reg (pointerSize arch) t seen = ⟨pointerSize arch, pointerSize arch⟩) :=
  ⟨fun reg arch t seen => getTypeInfoF_isSome reg (pointerSize arch) _ t seen (le_refl _),
   fun reg arch t seen h1 h2 h3 h4 h5 h6 h7 h8 h9 =>
     getTypeInfo_unknown reg (pointerSize arch) t seen h1 h2 h3 h4 h5 h6 h7 h8 h9⟩

/-- Witness for claim C8 at the unregistered type name Foo. -/
theorem claim_C8_witness :
    (lookupPairs "Foo" (primTable 8) = none
      ∧ leadsWith ['*'] "Foo".data = false
      ∧ leadsWith ['[', ']'] "Foo".data = false
      ∧ arrayMatch "Foo".data = none
      ∧ leadsWith ['m', 'a', 'p', '['] "Foo".data = false
      ∧ leadsWith ['c', 'h', 'a', 'n', ' '] "Foo".data = false
      ∧ "Foo" ≠ "interface\x7b\x7d" ∧ "Foo" ≠ "any"
      ∧ lookupPairs "Foo" ([] : Registry) = none)
    ∧ getTypeInfo [] 8 "Foo" [] = ⟨8, 8⟩ :=
  ⟨⟨by decide, by decide, by decide, by decide, by decide, by decide, by decide, by decide,
    by decide⟩,
   claim_C8.2 [] .amd64 "Foo" [] (by decide) (by decide) (by decide) (by decide) (by decide)
     (by decide) (by decide) (by decide) (by decide)⟩

/-- Claim C7 (amended): for a fixed-array expression [N]T the resolver
clamps the size to MAX_SAFE_INTEGER exactly when 8 * N exceeds
MAX_SAFE_INTEGER (the code's `count > MAX_SAFE_INTEGER / 8` test) or
N times the element size exceeds MAX_SAFE_INTEGER; otherwise the size is
N times the element size; in both cases the alignment is the element's. -/
theorem claim_C7 :
    ∀ (reg : Registry) (arch : Architecture) (t : String) (seen : List String)
      (count : Nat) (elemChars : List Char),
      memStr t seen = false →
      lookupPairs t (primTable (pointerSize arch)) = none →
      leadsWith ['*'] t.data = false →
      leadsWith ['[', ']'] t.data = false →
      leadsWith ['['] t.data = true →
      hasChar t.data ']' = true →
      arrayMatch t.data = some (count, elemChars) →
      getTypeInfo reg (pointerSize arch) t seen =
        (if count * 8 > maxSafeInteger
            ∨ count * (getTypeInfo reg (pointerSize arch) (String.mk elemChars) seen).size
                > maxSafeInteger
         then ⟨maxSafeInteger,
               (getTypeInfo reg (pointerSize arch) (String.mk elemChars) seen).alignment⟩
         else ⟨count * (getTypeInfo reg (pointerSize arch) (String.mk elemChars) seen).size,
               (getTypeInfo reg (pointerSize arch) (String.mk elemChars) seen).alignment⟩) :=
  fun reg arch t seen count elemChars h1 h2 h3 h4 h5 h6 h7 =>
    getTypeInfo_array reg (pointerSize arch) t seen count elemChars h1 h2 h3 h4 h5 h6 h7

/-- Witness for claim C7 at the array expression [4]uint64. -/
theorem claim_C7_witness :
    (memStr "[4]uint64" [] = false
      ∧ lookupPairs "[4]uint64" (primTable 8) = none
      ∧ leadsWith ['*'] "[4]uint64".data = false
      ∧ leadsWith ['[', ']'] "[4]uint64".data = false
      ∧ leadsWith ['['] "[4]uint64".data = true
      ∧ hasChar "[4]uint64".data ']' = true
      ∧ arrayMatch "[4]uint64".data = some (4, "uint64".data))
    ∧ getTypeInfo [] 8 "[4]uint64" [] =
        (if 4 * 8 > maxSafeInteger
            ∨ 4 * (getTypeInfo [] 8 (String.mk "uint64".data) []).size > maxSafeInteger
         then ⟨maxSafeInteger, (getTypeInfo [] 8 (String.mk "uint64".data) []).alignment⟩
         else ⟨4 * (getTypeInfo [] 8 (String.mk "uint64".data) []).size,
               (getTypeInfo [] 8 (String.mk "uint64".data) []).alignment⟩) :=
  ⟨⟨by decide, by decide, by decide, by decide, by decide, by decide, by decide⟩,
   claim_C7 [] .amd64 "[4]uint64" [] 4 "uint64".data (by decide) (by decide) (by decide)
     (by decide) (by decide) (by decide) (by decide)⟩

/-- Claim C10: every computed struct layout reports cacheLinesCrossed equal
to the ceiling of totalSize / 64 (the number of cache-line windows the struct
occupies), not the number of fields that cross a window boundary. -/
theorem claim_C10 :
    ∀ (reg : Registry) (arch : Architecture) (name : String) (fields : List FieldDef),
      (calculateStructLayout reg (pointerSize arch) name fields).cacheLinesCrossed
        = ((calculateStructLayout reg (pointerSize arch) name fields).totalSize
            + CACHE_LINE_SIZE - 1) / CACHE_LINE_SIZE := by
  intro reg arch name fields
  unfold calculateStructLayout
  split
  · show (0 : Nat) = (0 + CACHE_LINE_SIZE - 1) / CACHE_LINE_SIZE
    decide
  · rfl

theorem alignOffset_ge (cur a : Nat) : cur ≤ alignOffset cur a := by
  unfold alignOffset
  dsimp only []
  split <;> omega

theorem alignOffset_mod (cur a : Nat) (ha : 1 ≤ a) : alignOffset cur a % a = 0 := by
  unfold alignOffset
  by_cases h : cur % a = 0
  · rw [if_pos h]; exact h
  · rw [if_neg h]
    have hd := Nat.div_add_mod cur a
    have hlt : cur % a < a := Nat.mod_lt _ (by omega)
    have hx : a * (cur / a + 1) = a * (cur / a) + a := by ring
    have : cur + (a - cur % a) = a * (cur / a + 1) := by omega
    rw [this]
    exact Nat.mul_mod_right _ _

theorem alignOffset_zero (a : Nat) : alignOffset 0 a = 0 := by
  simp [alignOffset]

theorem calcFields_lengths (resolve : String → TypeSizeInfo) :
    ∀ (ts : List String) (cur maxA : Nat),
      (calcFields resolve ts cur maxA).2.2.1.length = ts.length
      ∧ (calcFields resolve ts cur maxA).2.2.2.length = ts.length := by
  intro ts
  induction ts with
  | nil => intro cur maxA; simp [calcFields]
  | cons tn rest ih =>
    intro cur maxA
    simp only [calcFields, List.length_cons]
    constructor
    · simp [(ih _ _).1]
    · simp [(ih _ _).2]

theorem mapIsEmpty {α β : Type} (f : α → β) (l : List α) :
    (l.map f).isEmpty = l.isEmpty := by
  cases l <;> rfl

/-- Unfolding of `calculateStructLayout` on a non-empty field list. -/
theorem layout_spec (reg : Registry) (ptr : Nat) (name : String)
    (fields : List FieldDef) (h : fields.isEmpty = false) :
    calculateStructLayout reg ptr name fields =
      (let resolve := fun tn => getTypeInfo reg ptr tn []
       let r := calcFields resolve (fields.map (·.typeName)) 0 1
       let total := alignOffset r.1 r.2.1
       let infos := buildInfos resolve fields r.2.2.1
         ((r.2.2.2 ++ [total - r.1]).getD fields.length 0)
       ⟨name, infos, total, (r.2.2.2 ++ [total - r.1]).sum, r.2.1,
        calculateCacheLines infos total,
        (total + CACHE_LINE_SIZE - 1) / CACHE_LINE_SIZE,
        (infos.filter (·.crossesCacheLine)).map (·.name)⟩) := by
  unfold calculateStructLayout calculateStructSize
  rw [if_neg (by rw [h]; exact Bool.false_ne_true),
      if_neg (by rw [mapIsEmpty, h]; exact Bool.false_ne_true)]

theorem buildInfos_offset_mod (resolve : String → TypeSizeInfo)
    (hpos : ∀ tn, 1 ≤ (resolve tn).alignment) :
    ∀ (fds : List FieldDef) (cur maxA fp : Nat),
      ∀ f ∈ buildInfos resolve fds
          (calcFields resolve (fds.map (·.typeName)) cur maxA).2.2.1 fp,
        f.offset % f.alignment = 0 := by
  intro fds
  induction fds with
  | nil => intro cur maxA fp f hf; simp [calcFields, buildInfos] at hf
  | cons g rest ih =>
    intro cur maxA fp f hf
    simp only [List.map_cons, calcFields] at hf
    simp only [buildInfos] at hf
    rcases List.mem_cons.mp hf with rfl | hmem
    · exact alignOffset_mod _ _ (hpos g.typeName)
    · exact ih _ _ _ f hmem

theorem pointerSize_pos (arch : Architecture) : 1 ≤ pointerSize arch := by
  cases arch <;> decide

/-- Claim C4: in every computed struct layout, every field's offset is an
exact multiple of that field's alignment. -/
theorem claim_C4 :
    ∀ (reg : Registry) (arch : Architecture) (name : String) (fields : List FieldDef),
      ∀ f ∈ (calculateStructLayout reg (pointerSize arch) name fields).fields,
        f.offset % f.alignment = 0 := by
  intro reg arch name fields f hf
  cases hemp : fields.isEmpty with
  | true =>
    unfold calculateStructLayout at hf
    rw [if_pos hemp] at hf
    simp at hf
  | false =>
    rw [layout_spec reg (pointerSize arch) name fields hemp] at hf
    exact buildInfos_offset_mod _
      (fun tn => getTypeInfo_align_pos reg (pointerSize arch) tn [] (pointerSize_pos arch))
      fields 0 1 _ f hf

/-- Witness for claim C4 at the concrete five-field amd64 struct. -/
theorem claim_C4_witness :
    (⟨"Active", "bool", 0, 1, 1, 7, 0, 0, false⟩ : FieldInfo)
        ∈ (calculateStructLayout [] (pointerSize .amd64) "User" c1Fields).fields
    ∧ (0 : Nat) % 1 = 0 :=
  ⟨by decide,
   claim_C4 [] .amd64 "User" c1Fields ⟨"Active", "bool", 0, 1, 1, 7, 0, 0, false⟩ (by decide)⟩

theorem calcFields_cons (resolve : String → TypeSizeInfo) (tn : String)
    (ts : List String) (cur maxA : Nat) :
    calcFields resolve (tn :: ts) cur maxA =
      (let ti := resolve tn
       let aligned := alignOffset cur ti.alignment
       let r := calcFields resolve ts (aligned + ti.size) (max maxA ti.alignment)
       (r.1, r.2.1, aligned :: r.2.2.1, (aligned - cur) :: r.2.2.2)) := rfl

theorem buildInfos_cons (resolve : String → TypeSizeInfo) (f : FieldDef)
    (rest : List FieldDef) (o : Nat) (orest : List Nat) (fp : Nat) :
    buildInfos resolve (f :: rest) (o :: orest) fp =
      (let ti := resolve f.typeName
       let pa : Int :=
         match orest with
         | o2 :: _ => (o2 : Int) - ((o : Int) + ti.size)
         | [] => (fp : Int)
       ⟨f.name, f.typeName, o, ti.size, ti.alignment, pa,
        Int.fdiv o CACHE_LINE_SIZE, Int.fdiv ((o : Int) + ti.size - 1) CACHE_LINE_SIZE,
        decide (Int.fdiv o CACHE_LINE_SIZE ≠ Int.fdiv ((o : Int) + ti.size - 1) CACHE_LINE_SIZE)⟩ ::
        buildInfos resolve rest orest fp) := rfl

theorem buildInfos_nil (resolve : String → TypeSizeInfo) (offs : List Nat) (fp : Nat) :
    buildInfos resolve [] offs fp = [] := rfl

theorem buildInfos_pa_sum (resolve : String → TypeSizeInfo) :
    ∀ (fds : List FieldDef) (cur maxA fp : Nat), fds ≠ [] →
      ((buildInfos resolve fds
          (calcFields resolve (fds.map (·.typeName)) cur maxA).2.2.1 fp).map
        (·.paddingAfter)).sum
      = ((((calcFields resolve (fds.map (·.typeName)) cur maxA).2.2.2.drop 1).sum : Int)
          + (fp : Int)) := by
  intro fds
  induction fds with
  | nil => intro cur maxA fp h; exact absurd rfl h
  | cons g rest ih =>
    intro cur maxA fp _
    cases rest with
    | nil =>
      rw [List.map_cons, List.map_nil, calcFields_cons]
      dsimp only []
      rw [calcFields]
      dsimp only []
      rw [buildInfos_cons]
      dsimp only []
      rw [buildInfos_nil]
      simp
    | cons g2 rest2 =>
      rw [List.map_cons, calcFields_cons]
      dsimp only []
      rw [List.map_cons, calcFields_cons]
      dsimp only []
      rw [buildInfos_cons]
      dsimp only []
      have hIH := ih (alignOffset cur (resolve g.typeName).alignment
          + (resolve g.typeName).size)
        (max maxA (resolve g.typeName).alignment) fp (by simp)
      rw [List.map_cons, calcFields_cons] at hIH
      dsimp only [] at hIH
      rw [List.map_cons, List.sum_cons, hIH]
      have hge := alignOffset_ge
        (alignOffset cur (resolve g.typeName).alignment + (resolve g.typeName).size)
        (resolve g2.typeName).alignment
      rw [List.drop_one, List.drop_one]
      rw [List.tail_cons, List.tail_cons, List.sum_cons]
      push_cast
      omega

theorem buildInfos_last (resolve : String → TypeSizeInfo) :
    ∀ (fds : List FieldDef) (cur maxA fp : Nat), fds ≠ [] →
      ((buildInfos resolve fds
          (calcFields resolve (fds.map (·.typeName)) cur maxA).2.2.1 fp).getLast?).map
        (fun lf => (lf.offset : Int) + lf.size + lf.paddingAfter)
      = some (((calcFields resolve (fds.map (·.typeName)) cur maxA).1 : Int) + (fp : Int)) := by
  intro fds
  induction fds with
  | nil => intro cur maxA fp h; exact absurd rfl h
  | cons g rest ih =>
    intro cur maxA fp _
    cases rest with
    | nil =>
      rw [List.map_cons, List.map_nil, calcFields_cons]
      dsimp only []
      rw [calcFields]
      dsimp only []
      rw [buildInfos_cons]
      dsimp only []
      rw [buildInfos_nil]
      simp
    | cons g2 rest2 =>
      rw [List.map_cons, calcFields_cons]
      dsimp only []
      rw [List.map_cons, calcFields_cons]
      dsimp only []
      rw [buildInfos_cons]
      dsimp only []
      rw [buildInfos_cons]
      dsimp only []
      rw [List.getLast?_cons_cons]
      have hIH := ih (alignOffset cur (resolve g.typeName).alignment
          + (resolve g.typeName).size)
        (max maxA (resolve g.typeName).alignment) fp (by simp)
      rw [List.map_cons, calcFields_cons] at hIH
      dsimp only [] at hIH
      rw [buildInfos_cons] at hIH
      dsimp only [] at hIH
      exact hIH

theorem getD_append_len (l : List Nat) (x : Nat) {n : Nat} (h : n = l.length) :
    (l ++ [x]).getD n 0 = x := by
  subst h
  induction l with
  | nil => rfl
  | cons a rest ih =>
    rw [List.cons_append]
    exact ih

theorem calcFields_pads_shape (resolve : String → TypeSizeInfo) (tn : String)
    (ts : List String) (maxA : Nat) :
    (calcFields resolve (tn :: ts) 0 maxA).2.2.2
      = 0 :: (calcFields resolve ts
          (alignOffset 0 (resolve tn).alignment + (resolve tn).size)
          (max maxA (resolve tn).alignment)).2.2.2 := by
  rw [calcFields_cons]
  dsimp only []
  rw [Nat.sub_zero, alignOffset_zero]

/-- Claim C5: for every computed layout with at least one field, the sum of
the fields' paddingAfter values equals totalPadding, and totalSize equals the
last field's offset plus its size plus the trailing padding (which the code
attributes to the last field's paddingAfter). -/
theorem claim_C5 :
    ∀ (reg : Registry) (arch : Architecture) (name : String) (fields : List FieldDef),
      fields ≠ [] →
      ((calculateStructLayout reg (pointerSize arch) name fields).fields.map
          (·.paddingAfter)).sum
        = ((calculateStructLayout reg (pointerSize arch) name fields).totalPadding : Int)
      ∧ lastFieldSum (calculateStructLayout reg (pointerSize arch) name fields)
        = some ((calculateStructLayout reg (pointerSize arch) name fields).totalSize : Int) := by
  intro reg arch name fields hne
  have hemp : fields.isEmpty = false := by
    cases fields
    · exact absurd rfl hne
    · rfl
  rw [layout_spec reg (pointerSize arch) name fields hemp]
  dsimp only []
  set resolve := fun tn => getTypeInfo reg (pointerSize arch) tn [] with hres
  set r := calcFields resolve (fields.map (·.typeName)) 0 1 with hr
  set total := alignOffset r.1 r.2.1 with htotal
  have hlen : r.2.2.2.length = fields.length := by
    rw [hr]
    rw [(calcFields_lengths resolve (fields.map (·.typeName)) 0 1).2]
    exact List.length_map _ _
  have hfp : (r.2.2.2 ++ [total - r.1]).getD fields.length 0 = total - r.1 :=
    getD_append_len _ _ hlen.symm
  rw [hfp]
  have hge : r.1 ≤ total := htotal ▸ alignOffset_ge r.1 r.2.1
  constructor
  · rw [buildInfos_pa_sum resolve fields 0 1 (total - r.1) hne]
    have hshape : ∃ restPads, r.2.2.2 = 0 :: restPads := by
      cases fields with
      | nil => exact absurd rfl hne
      | cons g rest =>
        rw [hr, List.map_cons]
        exact ⟨_, calcFields_pads_shape resolve g.typeName (rest.map (·.typeName)) 1⟩
    obtain ⟨restPads, hpads⟩ := hshape
    rw [hpads]
    rw [List.sum_append, List.sum_cons, List.drop_one, List.tail_cons]
    simp
  · unfold lastFieldSum
    dsimp only []
    rw [buildInfos_last resolve fields 0 1 (total - r.1) hne, ← hr]
    congr 1
    omega

/-- Witness for claim C5 at the concrete five-field amd64 struct. -/
theorem claim_C5_witness :
    c1Fields ≠ []
    ∧ ((calculateStructLayout [] (pointerSize .amd64) "User" c1Fields).fields.map
        (·.paddingAfter)).sum
      = ((calculateStructLayout [] (pointerSize .amd64) "User" c1Fields).totalPadding : Int)
    ∧ lastFieldSum (calculateStructLayout [] (pointerSize .amd64) "User" c1Fields)
      = some ((calculateStructLayout [] (pointerSize .amd64) "User" c1Fields).totalSize : Int) :=
  ⟨by decide,
   (claim_C5 [] .amd64 "User" c1Fields (by decide)).1,
   (claim_C5 [] .amd64 "User" c1Fields (by decide)).2⟩

theorem calculateCacheLines_spec (flds : List FieldInfo) (total : Nat) :
    (calculateCacheLines flds total).length = (total + CACHE_LINE_SIZE - 1) / CACHE_LINE_SIZE
    ∧ ∀ p ∈ (calculateCacheLines flds total).enum,
        p.2.startOffset = (p.1 : Int) * CACHE_LINE_SIZE
        ∧ p.2.endOffset = min (p.2.startOffset + CACHE_LINE_SIZE - 1) ((total : Int) - 1)
        ∧ p.2.bytesUsed + p.2.bytesPadding = p.2.endOffset - p.2.startOffset + 1 := by
  constructor
  · simp [calculateCacheLines]
  · rw [List.forall_mem_enum]
    intro i hi
    unfold calculateCacheLines at hi ⊢
    simp only [List.length_map, List.length_range] at hi
    simp only [List.getElem_map, List.getElem_range]
    refine ⟨?_, ?_, ?_⟩
    · trivial
    · trivial
    · dsimp only []
      omega

/-- Claim C3 (amended): the cache-line segments partition the byte range
0..totalSize-1 into consecutive windows of the fixed 64-byte grid, the last
window truncated at totalSize - 1, and each segment's bytesUsed plus
bytesPadding equals that window's actual size (endOffset - startOffset + 1),
which is 64 only for the non-truncated windows. -/
theorem claim_C3 :
    ∀ (reg : Registry) (arch : Architecture) (name : String) (fields : List FieldDef),
      (calculateStructLayout reg (pointerSize arch) name fields).cacheLines.length
        = ((calculateStructLayout reg (pointerSize arch) name fields).totalSize
            + CACHE_LINE_SIZE - 1) / CACHE_LINE_SIZE
      ∧ ∀ p ∈ (calculateStructLayout reg (pointerSize arch) name fields).cacheLines.enum,
          p.2.startOffset = (p.1 : Int) * CACHE_LINE_SIZE
          ∧ p.2.endOffset = min (p.2.startOffset + CACHE_LINE_SIZE - 1)
              (((calculateStructLayout reg (pointerSize arch) name fields).totalSize : Int) - 1)
          ∧ p.2.bytesUsed + p.2.bytesPadding = p.2.endOffset - p.2.startOffset + 1 := by
  intro reg arch name fields
  cases hemp : fields.isEmpty with
  | true =>
    unfold calculateStructLayout
    rw [if_pos hemp]
    constructor
    · show (0 : Nat) = (0 + CACHE_LINE_SIZE - 1) / CACHE_LINE_SIZE
      decide
    · intro p hp
      simp [List.enum] at hp
  | false =>
    rw [layout_spec reg (pointerSize arch) name fields hemp]
    dsimp only []
    exact calculateCacheLines_spec _ _

/-- Witness for claim C3 at the single-bool struct and segment index 0. -/
theorem claim_C3_witness :
    (calculateStructLayout [] (pointerSize .amd64) "Tiny" [⟨"a", "bool"⟩]).cacheLines.length
      = ((calculateStructLayout [] (pointerSize .amd64) "Tiny" [⟨"a", "bool"⟩]).totalSize
          + CACHE_LINE_SIZE - 1) / CACHE_LINE_SIZE
    ∧ ((0 : Nat), (⟨0, 0, 0, ["a"], 1, 0⟩ : CacheLineInfo))
        ∈ (calculateStructLayout [] (pointerSize .amd64) "Tiny" [⟨"a", "bool"⟩]).cacheLines.enum
    ∧ ((⟨0, 0, 0, ["a"], 1, 0⟩ : CacheLineInfo).startOffset
        = (((0 : Nat)) : Int) * CACHE_LINE_SIZE
      ∧ (⟨0, 0, 0, ["a"], 1, 0⟩ : CacheLineInfo).endOffset
        = min ((⟨0, 0, 0, ["a"], 1, 0⟩ : CacheLineInfo).startOffset + CACHE_LINE_SIZE - 1)
            (((calculateStructLayout [] (pointerSize .amd64) "Tiny"
                [⟨"a", "bool"⟩]).totalSize : Int) - 1)
      ∧ (⟨0, 0, 0, ["a"], 1, 0⟩ : CacheLineInfo).bytesUsed
          + (⟨0, 0, 0, ["a"], 1, 0⟩ : CacheLineInfo).bytesPadding
        = (⟨0, 0, 0, ["a"], 1, 0⟩ : CacheLineInfo).endOffset
          - (⟨0, 0, 0, ["a"], 1, 0⟩ : CacheLineInfo).startOffset + 1) :=
  ⟨(claim_C3 [] .amd64 "Tiny" [⟨"a", "bool"⟩]).1,
   by decide,
   (claim_C3 [] .amd64 "Tiny" [⟨"a", "bool"⟩]).2
     ((0 : Nat), (⟨0, 0, 0, ["a"], 1, 0⟩ : CacheLineInfo)) (by decide)⟩

theorem fieldLe_iff (a b : FieldInfo) :
    fieldLe a b = true
      ↔ (b.alignment < a.alignment
          ∨ (a.alignment = b.alignment ∧ b.size ≤ a.size)) := by
  unfold fieldLe
  by_cases h : a.alignment = b.alignment
  · rw [if_pos h]
    simp [h]
  · rw [if_neg h]
    simp [h]
    omega

theorem fieldLe_total (a b : FieldInfo) : fieldLe a b = true ∨ fieldLe b a = true := by
  rw [fieldLe_iff, fieldLe_iff]
  omega

theorem fieldLe_trans {a b c : FieldInfo} (hab : fieldLe a b = true)
    (hbc : fieldLe b c = true) : fieldLe a c = true := by
  rw [fieldLe_iff] at hab hbc ⊢
  omega

theorem insertField_perm (x : FieldInfo) (l : List FieldInfo) :
    (insertField x l).Perm (x :: l) := by
  induction l with
  | nil => exact List.Perm.refl _
  | cons y ys ih =>
    unfold insertField
    split
    · exact List.Perm.refl _
    · exact (ih.cons y).trans (List.Perm.swap x y ys)

theorem sortFields_perm (l : List FieldInfo) : (sortFields l).Perm l := by
  induction l with
  | nil => exact List.Perm.refl _
  | cons x xs ih => exact (insertField_perm x (sortFields xs)).trans (ih.cons x)

theorem insertField_pairwise (x : FieldInfo) (l : List FieldInfo)
    (h : l.Pairwise (fun a b => fieldLe a b = true)) :
    (insertField x l).Pairwise (fun a b => fieldLe a b = true) := by
  induction l with
  | nil => simp [insertField]
  | cons y ys ih =>
    obtain ⟨hy, hys⟩ := List.pairwise_cons.mp h
    unfold insertField
    split
    · rename_i hxy
      refine List.pairwise_cons.mpr ⟨?_, h⟩
      intro z hz
      rcases List.mem_cons.mp hz with rfl | hmem
      · exact hxy
      · exact fieldLe_trans hxy (hy z hmem)
    · rename_i hxy
      have hyx : fieldLe y x = true := by
        rcases fieldLe_total x y with hc | hc
        · exact absurd hc hxy
        · exact hc
      refine List.pairwise_cons.mpr ⟨?_, ih hys⟩
      intro z hz
      have hz' := (insertField_perm x ys).mem_iff.mp hz
      rcases List.mem_cons.mp hz' with rfl | hmem
      · exact hyx
      · exact hy z hmem

theorem sortFields_pairwise (l : List FieldInfo) :
    (sortFields l).Pairwise (fun a b => fieldLe a b = true) := by
  induction l with
  | nil => simp [sortFields]
  | cons x xs ih => exact insertField_pairwise x (sortFields xs) ih

theorem sortFields_of_pairwise (l : List FieldInfo)
    (h : l.Pairwise (fun a b => fieldLe a b = true)) : sortFields l = l := by
  induction l with
  | nil => rfl
  | cons x xs ih =>
    obtain ⟨hx, hxs⟩ := List.pairwise_cons.mp h
    unfold sortFields
    rw [ih hxs]
    cases xs with
    | nil => rfl
    | cons y ys =>
      unfold insertField
      rw [if_pos (hx y (by simp))]

theorem buildInfos_nil2 (resolve : String → TypeSizeInfo) (f : FieldDef)
    (rest : List FieldDef) (fp : Nat) :
    buildInfos resolve (f :: rest) [] fp = [] := rfl

theorem buildInfos_mem_spec (resolve : String → TypeSizeInfo) :
    ∀ (fds : List FieldDef) (offs : List Nat) (fp : Nat),
      ∀ f ∈ buildInfos resolve fds offs fp,
        f.alignment = (resolve f.typeName).alignment
        ∧ f.size = (resolve f.typeName).size := by
  intro fds
  induction fds with
  | nil => intro offs fp f hf; rw [buildInfos_nil] at hf; simp at hf
  | cons g rest ih =>
    intro offs fp f hf
    cases offs with
    | nil => rw [buildInfos_nil2] at hf; simp at hf
    | cons o orest =>
      rw [buildInfos_cons] at hf
      dsimp only [] at hf
      rcases List.mem_cons.mp hf with rfl | hmem
      · exact ⟨rfl, rfl⟩
      · exact ih orest fp f hmem

theorem buildInfos_length (resolve : String → TypeSizeInfo) :
    ∀ (fds : List FieldDef) (offs : List Nat) (fp : Nat), offs.length = fds.length →
      (buildInfos resolve fds offs fp).length = fds.length := by
  intro fds
  induction fds with
  | nil => intro offs fp _; rw [buildInfos_nil]; rfl
  | cons g rest ih =>
    intro offs fp hlen
    cases offs with
    | nil => simp at hlen
    | cons o orest =>
      rw [buildInfos_cons]
      dsimp only []
      rw [List.length_cons, List.length_cons]
      simp only [List.length_cons] at hlen
      rw [ih orest fp (by omega)]

theorem buildInfos_map_name (resolve : String → TypeSizeInfo) :
    ∀ (fds : List FieldDef) (offs : List Nat) (fp : Nat), offs.length = fds.length →
      (buildInfos resolve fds offs fp).map (·.name) = fds.map (·.name) := by
  intro fds
  induction fds with
  | nil => intro offs fp _; rw [buildInfos_nil]; rfl
  | cons g rest ih =>
    intro offs fp hlen
    cases offs with
    | nil => simp at hlen
    | cons o orest =>
      rw [buildInfos_cons]
      dsimp only []
      rw [List.map_cons, List.map_cons]
      simp only [List.length_cons] at hlen
      rw [ih orest fp (by omega)]

theorem buildInfos_map_typeName (resolve : String → TypeSizeInfo) :
    ∀ (fds : List FieldDef) (offs : List Nat) (fp : Nat), offs.length = fds.length →
      (buildInfos resolve fds offs fp).map (·.typeName) = fds.map (·.typeName) := by
  intro fds
  induction fds with
  | nil => intro offs fp _; rw [buildInfos_nil]; rfl
  | cons g rest ih =>
    intro offs fp hlen
    cases offs with
    | nil => simp at hlen
    | cons o orest =>
      rw [buildInfos_cons]
      dsimp only []
      rw [List.map_cons, List.map_cons]
      simp only [List.length_cons] at hlen
      rw [ih orest fp (by omega)]

theorem buildInfos_map_key (resolve : String → TypeSizeInfo) :
    ∀ (fds : List FieldDef) (offs : List Nat) (fp : Nat), offs.length = fds.length →
      (buildInfos resolve fds offs fp).map (fun f => (f.alignment, f.size))
        = fds.map (fun d => ((resolve d.typeName).alignment, (resolve d.typeName).size)) := by
  intro fds
  induction fds with
  | nil => intro offs fp _; rw [buildInfos_nil]; rfl
  | cons g rest ih =>
    intro offs fp hlen
    cases offs with
    | nil => simp at hlen
    | cons o orest =>
      rw [buildInfos_cons]
      dsimp only []
      rw [List.map_cons, List.map_cons]
      simp only [List.length_cons] at hlen
      rw [ih orest fp (by omega)]

/-- The comparator on the (alignment, size) key alone. -/
def keyLe (x y : Nat × Nat) : Bool :=
  if x.1 = y.1 then y.2 ≤ x.2 else y.1 ≤ x.1

theorem fieldLe_eq_keyLe (a b : FieldInfo) :
    fieldLe a b = keyLe (a.alignment, a.size) (b.alignment, b.size) := rfl

/-- Claim C9: the optimizer is idempotent; re-running it on the layout of
the field order it produced reports zero additional bytes saved and the same
field ordering. -/
theorem claim_C9 :
    ∀ (reg : Registry) (arch : Architecture) (name : String) (fds : List FieldDef),
      (optimizeStruct reg (pointerSize arch)
          (calculateStructLayout reg (pointerSize arch) name
            (optimizedOrder
              (calculateStructLayout reg (pointerSize arch) name fds)))).bytesSaved = 0
      ∧ (optimizeStruct reg (pointerSize arch)
          (calculateStructLayout reg (pointerSize arch) name
            (optimizedOrder
              (calculateStructLayout reg (pointerSize arch) name fds)))).reorderedFields
        = (optimizeStruct reg (pointerSize arch)
            (calculateStructLayout reg (pointerSize arch) name fds)).reorderedFields := by
  intro reg arch name fds
  cases hemp : fds.isEmpty with
  | true =>
    have hnil : fds = [] := by
      cases fds
      · rfl
      · simp at hemp
    subst hnil
    exact ⟨rfl, rfl⟩
  | false =>
    rw [layout_spec reg (pointerSize arch) name fds hemp]
    dsimp only []
    set p := pointerSize arch with hp
    set resolve := fun tn => getTypeInfo reg p tn [] with hres
    set r1 := calcFields resolve (fds.map (·.typeName)) 0 1 with hr1
    set total1 := alignOffset r1.1 r1.2.1 with htotal1
    set fp1 := (r1.2.2.2 ++ [total1 - r1.1]).getD fds.length 0 with hfp1
    set infos1 := buildInfos resolve fds r1.2.2.1 fp1 with hinfos1
    have hlen1 : r1.2.2.1.length = fds.length := by
      rw [hr1, (calcFields_lengths resolve (fds.map (·.typeName)) 0 1).1]
      exact List.length_map _ _
    have hilen1 : infos1.length = fds.length := by
      rw [hinfos1]
      exact buildInfos_length resolve fds _ fp1 hlen1
    have hne : fds ≠ [] := by
      cases fds
      · simp at hemp
      · simp
    have hine1 : infos1 ≠ [] := by
      intro hc
      rw [hc] at hilen1
      exact hne (List.length_eq_zero.mp hilen1.symm)
    set L1 := sortFields infos1 with hL1
    have hL1ne : L1 ≠ [] := by
      intro hc
      have := (sortFields_perm infos1).length_eq
      rw [← hL1, hc] at this
      exact hine1 (List.length_eq_zero.mp this.symm)
    set F2 := L1.map (fun f => (⟨f.name, f.typeName⟩ : FieldDef)) with hF2
    have hOO : optimizedOrder
        ⟨name, infos1, total1, (r1.2.2.2 ++ [total1 - r1.1]).sum, r1.2.1,
          calculateCacheLines infos1 total1,
          (total1 + CACHE_LINE_SIZE - 1) / CACHE_LINE_SIZE,
          (infos1.filter (·.crossesCacheLine)).map (·.name)⟩ = F2 := by
      unfold optimizedOrder
      rw [hF2, hL1]
    rw [hOO]
    have hF2ne : F2 ≠ [] := by
      rw [hF2]
      intro hc
      exact hL1ne (List.map_eq_nil_iff.mp hc)
    have hemp2 : F2.isEmpty = false := by
      cases hF2c : F2
      · exact absurd hF2c hF2ne
      · rfl
    rw [layout_spec reg p name F2 hemp2]
    dsimp only []
    set r2 := calcFields resolve (F2.map (·.typeName)) 0 1 with hr2
    set total2 := alignOffset r2.1 r2.2.1 with htotal2
    set fp2 := (r2.2.2.2 ++ [total2 - r2.1]).getD F2.length 0 with hfp2
    set infos2 := buildInfos resolve F2 r2.2.2.1 fp2 with hinfos2
    have hlen2 : r2.2.2.1.length = F2.length := by
      rw [hr2, (calcFields_lengths resolve (F2.map (·.typeName)) 0 1).1]
      exact List.length_map _ _
    have hilen2 : infos2.length = F2.length := by
      rw [hinfos2]
      exact buildInfos_length resolve F2 _ fp2 hlen2
    have hine2 : infos2 ≠ [] := by
      intro hc
      rw [hc] at hilen2
      exact hF2ne (List.length_eq_zero.mp hilen2.symm)
    have hkey2 : infos2.map (fun f => (f.alignment, f.size))
        = L1.map (fun f => (f.alignment, f.size)) := by
      rw [hinfos2, buildInfos_map_key resolve F2 _ _ hlen2, hF2, List.map_map]
      apply List.map_congr_left
      intro f hf
      have hf1 : f ∈ infos1 := (sortFields_perm infos1).mem_iff.mp (hL1 ▸ hf)
      obtain ⟨ha, hs⟩ := buildInfos_mem_spec resolve fds _ fp1 f (hinfos1 ▸ hf1)
      dsimp only [Function.comp]
      rw [← ha, ← hs]
    have hpair1 : L1.Pairwise (fun a b => fieldLe a b = true) := by
      rw [hL1]
      exact sortFields_pairwise infos1
    have hpair2 : infos2.Pairwise (fun a b => fieldLe a b = true) := by
      have h2 : (L1.map (fun f => (f.alignment, f.size))).Pairwise
          (fun x y => keyLe x y = true) := by
        rw [List.pairwise_map]
        exact hpair1
      rw [← hkey2, List.pairwise_map] at h2
      exact h2
    have hsort2 : sortFields infos2 = infos2 := sortFields_of_pairwise _ hpair2
    have hie1 : infos1.isEmpty = false := by
      cases hic : infos1
      · exact absurd hic hine1
      · rfl
    have hie2 : infos2.isEmpty = false := by
      cases hic : infos2
      · exact absurd hic hine2
      · rfl
    have hmapT : infos2.map (·.typeName) = F2.map (·.typeName) := by
      rw [hinfos2]
      exact buildInfos_map_typeName resolve F2 _ fp2 hlen2
    have hmapN2 : infos2.map (·.name) = L1.map (·.name) := by
      rw [hinfos2, buildInfos_map_name resolve F2 _ fp2 hlen2, hF2, List.map_map]
      rfl
    unfold optimizeStruct
    rw [if_neg (by rw [hie2]; exact Bool.false_ne_true),
        if_neg (by rw [hie1]; exact Bool.false_ne_true)]
    dsimp only []
    rw [hsort2, hmapT]
    have hsize : (calculateStructSize reg p [] (F2.map (·.typeName))).size = total2 := by
      unfold calculateStructSize
      rw [if_neg (by rw [mapIsEmpty, hemp2]; exact Bool.false_ne_true)]
    rw [hsize]
    constructor
    · omega
    · rw [hmapN2, ← hL1]
